import Mathlib

/-!
Verification of the n-gram Markov sentence generator (novelendless.py).

The model is embedded shallowly:

* A `Model` is an insertion-ordered association list from states
  (lists of tokens, Python tuples) to insertion-ordered counters
  (association lists from token to count), mirroring Python's
  `defaultdict(Counter)` whose `dict` and `Counter` preserve insertion
  order, which matters because sampling indexes into `model.keys()` and
  `counter.items()` in that order.
* The morphological analyzer (fugashi) is an external collaborator; the
  particle classifier `is_particle` is therefore a parameter
  `cls : String → Bool`.
* Python's global `random` is modelled as a parameter `rng : RNG σ`:
  a deterministic seeding function plus a deterministic state-transition
  step producing a natural number.  `random.choice` / `random.choices`
  always return a member of their population; this guarantee is encoded
  by reducing the drawn number modulo the population size (respectively
  modulo the total weight).  The global random state is threaded
  explicitly through the generator.
* The unbounded rejection-sampling loop over start states is embedded
  with explicit fuel; a `none` result means the loop was still running
  after `fuel` draws.
* The `ValueError` that `choose_next` raises on an empty population or a
  zero total weight is modelled by `Except Unit`, `Except.error ()`
  standing for the raised exception.
-/

/-- Deterministic pseudo-random source: `seedFn` models `random.seed`,
`next` models drawing from the generator (state in, number and new state
out). -/
structure RNG (σ : Type) where
  seedFn : Nat → σ
  next : σ → Nat × σ

/-- END_TOKENS from the source: sentence terminator tokens. -/
def END_TOKENS : List String := ["。", "！", "？", "\n"]

/-- START_EXCLUDE from the source: tokens that, per the source comment
(文頭にしないトークン), are not to be placed at the start of a sentence. -/
def START_EXCLUDE : List String :=
  ["が", "に", "で", "から", "を", "は", "て", "と", "も", "へ", "や", "の",
   "より", "しか", "だけ", "だり"]

/-- A Markov model: insertion-ordered map from state to counter. -/
abbrev Model := List (List String × List (String × Nat))

/-- Increment the count of `tk` in a counter, appending a fresh entry
with count 1 when absent (Python `Counter.__iadd__` on a key). -/
def bumpCounter (c : List (String × Nat)) (tk : String) : List (String × Nat) :=
  match c with
  | [] => [(tk, 1)]
  | (t, k) :: rest =>
    if t = tk then (t, k + 1) :: rest else (t, k) :: bumpCounter rest tk

/-- Update the counter stored under `st`, appending a fresh state entry
when absent (Python `model[state][nxt] += 1` on a `defaultdict(Counter)`). -/
def addCount (m : Model) (st : List String) (tk : String) : Model :=
  match m with
  | [] => [(st, [(tk, 1)])]
  | (s, c) :: rest =>
    if s = st then (s, bumpCounter c tk) :: rest else (s, c) :: addCount rest st tk

/-- Python `model.get(state)`: the counter stored under `st`, if any. -/
def lookupState (m : Model) (st : List String) : Option (List (String × Nat)) :=
  match m with
  | [] => none
  | (s, c) :: rest => if s = st then some c else lookupState rest st

/-- The count stored in a counter for token `tk` (0 when absent). -/
def cntLookup (c : List (String × Nat)) (tk : String) : Nat :=
  match c with
  | [] => 0
  | (t, k) :: rest => if t = tk then k else cntLookup rest tk

/-- The count stored in the model for the pair (`st`, `tk`) (0 when no
entry exists). -/
def lookupCnt (m : Model) (st : List String) (tk : String) : Nat :=
  match lookupState m st with
  | none => 0
  | some c => cntLookup c tk

/-- Python `tokens[i : i + n - 1]`: the state of the window at `i`. -/
def window (tokens : List String) (n i : Nat) : List String :=
  (tokens.drop i).take (n - 1)

/-- Python `tokens[i + n - 1]`: the successor of the window at `i`. -/
def succAt (tokens : List String) (n i : Nat) : String :=
  tokens.getD (i + n - 1) ""

/-- build_model from the source, over an already tokenized sequence
(tokenization itself is the external fugashi collaborator):

    model = defaultdict(Counter)
    if len(tokens) < n: return model
    for i in range(len(tokens) - n):
        state = tuple(tokens[i:i + n - 1])
        nxt = tokens[i + n - 1]
        model[state][nxt] += 1
    return model
-/
def build_model (tokens : List String) (n : Nat) : Model :=
  if tokens.length < n then []
  else
    (List.range (tokens.length - n)).foldl
      (fun m i => addCount m (window tokens n i) (succAt tokens n i)) []

/-- Whether the window at index `i` has state `st` and successor `tk`. -/
def winMatch (tokens : List String) (n : Nat) (st : List String) (tk : String)
    (i : Nat) : Bool :=
  decide (window tokens n i = st) && decide (succAt tokens n i = tk)

/-- Number of indices in the source's loop range `range(len(tokens) - n)`
whose window has state `st` and successor `tk`. -/
def slidingCount (tokens : List String) (n : Nat) (st : List String)
    (tk : String) : Nat :=
  (List.range (tokens.length - n)).countP (winMatch tokens n st tk)

/-- Modelled from the spec: the spec's count ranges over ALL full windows,
i.e. every index i with i + n ≤ len(tokens) (the inclusive range
[0, len(tokens) - n]).  Stated here only to be compared with the count the
source actually stores. -/
def slidingCountFull (tokens : List String) (n : Nat) (st : List String)
    (tk : String) : Nat :=
  (List.range (tokens.length + 1 - n)).countP (winMatch tokens n st tk)

/-- Total weight of a counter (Python: sum of the weights passed to
`random.choices`). -/
def totalW (c : List (String × Nat)) : Nat :=
  (c.map (fun q => q.2)).sum

/-- Categorical selection by cumulative weights: pick the entry containing
the `r`-th unit of weight. -/
def pickW : List (String × Nat) → Nat → String
  | [], _ => ""
  | (t, w) :: rest, r => if r < w then t else pickW rest (r - w)

/-- choose_next from the source:

    def choose_next(counter):
        tokens, weights = zip(*counter.items())
        return random.choices(tokens, weights=weights, k=1)[0]

`none` models the `ValueError` raised when the counter is empty (the
`zip` unpacking fails) or when the total weight is zero
(`random.choices` rejects a zero total). -/
def choose_next {σ : Type} (rng : RNG σ) (c : List (String × Nat)) (g : σ) :
    Option (String × σ) :=
  if c = [] then none
  else if totalW c = 0 then none
  else some (pickW c ((rng.next g).1 % totalW c), (rng.next g).2)

/-- The candidate start states:

    candidates = [s for s in model.keys() if s[0] not in END_TOKENS]
    if not candidates: candidates = list(model.keys())
-/
def candidatesOf (m : Model) : List (List String) :=
  let c := (m.map (fun p => p.1)).filter (fun s => decide (s.headD "" ∉ END_TOKENS))
  if c = [] then m.map (fun p => p.1) else c

/-- The rejection-sampling loop over start states, with fuel:

    while True:
        state = random.choice(candidates)
        if not is_particle(state[0]):
            break

`none` means the loop was still running after `fuel` draws. -/
def startLoop {σ : Type} (rng : RNG σ) (cls : String → Bool)
    (cands : List (List String)) : Nat → σ → Option (List String × σ)
  | 0, _ => none
  | fuel + 1, g =>
    let r := (rng.next g).1
    let g' := (rng.next g).2
    let st := cands.getD (r % cands.length) []
    if cls (st.headD "") then startLoop rng cls cands fuel g' else some (st, g')

/-- Python `out[-(n-1):]`: the last `k` elements of a list. -/
def lastN (k : Nat) (l : List String) : List String :=
  l.drop (l.length - k)

/-- The extension loop of generate_sentence:

    while len(out) < max_len:
        counter = model.get(state)
        if not counter: break
        nxt = choose_next(counter)
        out.append(nxt)
        if nxt in END_TOKENS: break
        state = tuple(out[-(n - 1):])

The fuel equals `max_len - len(out)`, which is exactly the number of
iterations the guard `len(out) < max_len` still allows, since every
iteration appends exactly one token.  `Except.error ()` is the
`ValueError` propagated from choose_next. -/
def extLoop {σ : Type} (rng : RNG σ) (model : Model) (n : Nat) :
    Nat → List String → List String → σ → Except Unit (List String × σ)
  | 0, out, _, g => .ok (out, g)
  | fuel + 1, out, st, g =>
    match lookupState model st with
    | none => .ok (out, g)
    | some counter =>
      if counter = [] then .ok (out, g)
      else
        match choose_next rng counter g with
        | none => .error ()
        | some (nxt, g') =>
          let out' := out ++ [nxt]
          if nxt ∈ END_TOKENS then .ok (out', g')
          else extLoop rng model n fuel out' (lastN (n - 1) out') g'

/-- Python `random.seed(seed)` when a seed is given, else the incoming
global random state is kept. -/
def initState {σ : Type} (rng : RNG σ) (seed : Option Nat) (g : σ) : σ :=
  match seed with
  | some s => rng.seedFn s
  | none => g

/-- generate_sentence from the source, producing the token list `out`
(the returned string is its concatenation, see `generate_sentence`):

    def generate_sentence(model, n=N, max_len=MAX_LEN, seed=None):
        if seed is not None: random.seed(seed)
        if not model: return ""
        candidates = ...
        while True:
            state = random.choice(candidates)
            if not is_particle(state[0]): break
        out = list(state)
        while len(out) < max_len: ...
        return "".join(out)

`none` models the rejection loop exceeding its fuel;
`some (Except.error ())` models the `ValueError` from choose_next. -/
def genTokens {σ : Type} (rng : RNG σ) (cls : String → Bool) (model : Model)
    (n maxLen : Nat) (seed : Option Nat) (fuel : Nat) (g : σ) :
    Option (Except Unit (List String × σ)) :=
  let g0 := initState rng seed g
  if model = [] then some (.ok ([], g0))
  else
    match startLoop rng cls (candidatesOf model) fuel g0 with
    | none => none
    | some (st, g1) => some (extLoop rng model n (maxLen - st.length) st st g1)

/-- generate_sentence's returned string: the tokens joined with no
separator (`"".join(out)`). -/
def generate_sentence {σ : Type} (rng : RNG σ) (cls : String → Bool)
    (model : Model) (n maxLen : Nat) (seed : Option Nat) (fuel : Nat) (g : σ) :
    Option (Except Unit (String × σ)) :=
  (genTokens rng cls model n maxLen seed fuel g).map
    (fun e => e.map (fun p => (String.join p.1, p.2)))

/-- The random state after `k` draws. -/
def rngIter {σ : Type} (rng : RNG σ) (g : σ) : Nat → σ
  | 0 => g
  | k + 1 => (rng.next (rngIter rng g k)).2

/-- The candidate selected by the `k`-th draw of the rejection loop. -/
def drawAt {σ : Type} (rng : RNG σ) (cands : List (List String)) (g : σ)
    (k : Nat) : List String :=
  cands.getD ((rng.next (rngIter rng g k)).1 % cands.length) []

/-- A concrete deterministic random source used in concrete runs: the
state is a natural number, seeding stores the seed, and every draw
returns 0 leaving the state unchanged. -/
def rng0 : RNG Nat := ⟨fun s => s, fun g => (0, g)⟩

/-- A classifier that never reports a particle (the source's fail-open
behavior when fugashi yields no 助詞 tag). -/
def clsF : String → Bool := fun _ => false

/-- A classifier that reports exactly the token "ぱ" as a particle. -/
def clsP5 : String → Bool := fun t => t == "ぱ"

/-- Model with a single state ("の", "x") whose first token is in
START_EXCLUDE. -/
def modelNo : Model := [(["の", "x"], [("y", 1)])]

/-- Model with a single two-token state. -/
def modelAB : Model := [(["a", "b"], [("c", 1)])]

/-- Model whose first candidate starts with the particle "ぱ" and whose
second candidate starts with the non-particle "a". -/
def model5 : Model := [(["ぱ", "x"], [("y", 1)]), (["a", "b"], [("c", 1)])]

/-- The token sequence of the end-to-end scenario. -/
def T7 : List String := ["私", "は", "猫", "だ", "。", "猫", "は", "可愛い", "。"]

lemma lookupCnt_cons_eq (s0 : List String) (c0 : List (String × Nat))
    (rest : Model) (tk : String) :
    lookupCnt ((s0, c0) :: rest) s0 tk = cntLookup c0 tk := by
  simp [lookupCnt, lookupState]

lemma lookupCnt_cons_ne (s0 : List String) (c0 : List (String × Nat))
    (rest : Model) (st : List String) (tk : String) (h : s0 ≠ st) :
    lookupCnt ((s0, c0) :: rest) st tk = lookupCnt rest st tk := by
  simp only [lookupCnt, lookupState, if_neg h]

lemma cntLookup_bump (c : List (String × Nat)) (t tk : String) :
    cntLookup (bumpCounter c t) tk
      = cntLookup c tk + (if t = tk then 1 else 0) := by
  induction c with
  | nil =>
    by_cases h : t = tk <;> simp [bumpCounter, cntLookup, h]
  | cons hd rest ih =>
    obtain ⟨t0, k⟩ := hd
    by_cases h : t0 = t
    · subst h
      by_cases h2 : t0 = tk <;> simp [bumpCounter, cntLookup, h2]
    · by_cases h2 : t0 = tk
      · subst h2
        have ht : ¬ t = t0 := fun he => h he.symm
        simp [bumpCounter, cntLookup, h, ht]
      · simp [bumpCounter, cntLookup, h, h2, ih]

lemma lookupCnt_add (m : Model) (s : List String) (t : String)
    (st : List String) (tk : String) :
    lookupCnt (addCount m s t) st tk
      = lookupCnt m st tk
        + (if s = st then (if t = tk then 1 else 0) else 0) := by
  induction m with
  | nil =>
    by_cases h : s = st
    · subst h
      by_cases h2 : t = tk <;>
        simp [addCount, lookupCnt, lookupState, cntLookup, h2]
    · simp [addCount, lookupCnt, lookupState, h]
  | cons hd rest ih =>
    obtain ⟨s0, c0⟩ := hd
    by_cases h : s0 = s
    · subst h
      by_cases h2 : s0 = st
      · subst h2
        simp [addCount, lookupCnt, lookupState, cntLookup_bump]
      · simp [addCount, lookupCnt, lookupState, h2]
    · by_cases h2 : s0 = st
      · subst h2
        have hs : ¬ s = s0 := fun he => h he.symm
        simp [addCount, lookupCnt, lookupState, h, hs]
      · simp only [addCount, if_neg h]
        rw [lookupCnt_cons_ne s0 c0 _ st tk h2, lookupCnt_cons_ne s0 c0 _ st tk h2, ih]

lemma foldl_count (tokens : List String) (n : Nat) (st : List String)
    (tk : String) (idxs : List Nat) :
    ∀ m : Model,
      lookupCnt
        (idxs.foldl
          (fun m i => addCount m (window tokens n i) (succAt tokens n i)) m)
        st tk
      = lookupCnt m st tk + idxs.countP (winMatch tokens n st tk) := by
  induction idxs with
  | nil => intro m; simp
  | cons i rest ih =>
    intro m
    simp only [List.foldl_cons, List.countP_cons, ih, lookupCnt_add]
    by_cases h1 : window tokens n i = st
    · by_cases h2 : succAt tokens n i = tk
      · simp [winMatch, h1, h2]
        try omega
      · simp [winMatch, h1, h2]
        try omega
    · simp [winMatch, h1]
      try omega

lemma addCount_ne_nil (m : Model) (s : List String) (t : String) :
    addCount m s t ≠ [] := by
  cases m with
  | nil => simp [addCount]
  | cons hd rest =>
    simp only [addCount]
    split <;> simp

lemma foldl_add_ne_nil (tokens : List String) (n : Nat) (idxs : List Nat) :
    ∀ m : Model, (m ≠ [] ∨ idxs ≠ []) →
      idxs.foldl
        (fun m i => addCount m (window tokens n i) (succAt tokens n i)) m
        ≠ [] := by
  induction idxs with
  | nil =>
    intro m h
    rcases h with h | h
    · simpa using h
    · simp at h
  | cons i rest ih =>
    intro m _
    simp only [List.foldl_cons]
    exact ih _ (Or.inl (addCount_ne_nil _ _ _))

lemma bump_pos (c : List (String × Nat)) (t : String)
    (h : ∀ q ∈ c, 1 ≤ q.2) : ∀ q ∈ bumpCounter c t, 1 ≤ q.2 := by
  induction c with
  | nil =>
    intro q hq
    simp [bumpCounter] at hq
    simp [hq]
  | cons hd rest ih =>
    obtain ⟨t0, k⟩ := hd
    intro q hq
    by_cases he : t0 = t
    · simp [bumpCounter, he] at hq
      rcases hq with hq | hq
      · simp [hq]
      · exact h q (List.mem_cons_of_mem _ hq)
    · simp only [bumpCounter, if_neg he] at hq
      rcases List.mem_cons.mp hq with hq | hq
      · exact hq ▸ h (t0, k) (List.mem_cons_self _ _)
      · exact ih (fun q hq => h q (List.mem_cons_of_mem _ hq)) q hq

lemma addCount_inv (n : Nat) (m : Model) (s : List String) (t : String)
    (hm : ∀ p ∈ m, p.1.length = n - 1 ∧ ∀ q ∈ p.2, 1 ≤ q.2)
    (hs : s.length = n - 1) :
    ∀ p ∈ addCount m s t, p.1.length = n - 1 ∧ ∀ q ∈ p.2, 1 ≤ q.2 := by
  induction m with
  | nil =>
    intro p hp
    simp [addCount] at hp
    subst hp
    exact ⟨hs, by simp⟩
  | cons hd rest ih =>
    obtain ⟨s0, c0⟩ := hd
    intro p hp
    by_cases he : s0 = s
    · simp only [addCount, if_pos he] at hp
      rcases List.mem_cons.mp hp with hp | hp
      · subst hp
        have h0 := hm (s0, c0) (List.mem_cons_self _ _)
        exact ⟨h0.1, bump_pos c0 t h0.2⟩
      · exact hm p (List.mem_cons_of_mem _ hp)
    · simp only [addCount, if_neg he] at hp
      rcases List.mem_cons.mp hp with hp | hp
      · exact hp ▸ hm (s0, c0) (List.mem_cons_self _ _)
      · exact ih (fun q hq => hm q (List.mem_cons_of_mem _ hq)) p hp

lemma window_len (tokens : List String) (n i : Nat) (hln : n ≤ tokens.length)
    (hi : i < tokens.length - n) : (window tokens n i).length = n - 1 := by
  simp [window]
  omega

lemma foldl_inv (tokens : List String) (n : Nat) (idxs : List Nat)
    (hidx : ∀ i ∈ idxs, (window tokens n i).length = n - 1) :
    ∀ m : Model, (∀ p ∈ m, p.1.length = n - 1 ∧ ∀ q ∈ p.2, 1 ≤ q.2) →
      ∀ p ∈ idxs.foldl
        (fun m i => addCount m (window tokens n i) (succAt tokens n i)) m,
        p.1.length = n - 1 ∧ ∀ q ∈ p.2, 1 ≤ q.2 := by
  induction idxs with
  | nil => intro m hm; simpa using hm
  | cons i rest ih =>
    intro m hm
    simp only [List.foldl_cons]
    exact ih (fun j hj => hidx j (List.mem_cons_of_mem _ hj)) _
      (addCount_inv n m _ _ hm (hidx i (List.mem_cons_self _ _)))

lemma build_model_inv (tokens : List String) (n : Nat) :
    ∀ p ∈ build_model tokens n,
      p.1.length = n - 1 ∧ ∀ q ∈ p.2, 1 ≤ q.2 := by
  unfold build_model
  by_cases hl : tokens.length < n
  · simp [hl]
  · simp only [if_neg hl]
    exact foldl_inv tokens n _
      (fun i hi =>
        window_len tokens n i (Nat.le_of_not_lt hl) (List.mem_range.mp hi))
      [] (by simp)

lemma getD_mod_mem {α : Type} (l : List α) (d : α) (i : Nat) (h : l ≠ []) :
    l.getD (i % l.length) d ∈ l := by
  have hl : 0 < l.length := List.length_pos.mpr h
  have hm : i % l.length < l.length := Nat.mod_lt _ hl
  rw [List.getD_eq_getElem l d hm]
  exact List.getElem_mem hm

lemma lookupState_mem (m : Model) (st : List String)
    (c : List (String × Nat)) (h : lookupState m st = some c) : (st, c) ∈ m := by
  induction m with
  | nil => simp [lookupState] at h
  | cons hd rest ih =>
    obtain ⟨s0, c0⟩ := hd
    by_cases he : s0 = st
    · subst he
      simp [lookupState] at h
      subst h
      exact List.mem_cons_self _ _
    · simp only [lookupState, if_neg he] at h
      exact List.mem_cons_of_mem _ (ih h)

lemma mem_candidatesOf (m : Model) (x : List String)
    (h : x ∈ candidatesOf m) : x ∈ m.map (fun p => p.1) := by
  simp only [candidatesOf] at h
  split at h
  · exact h
  · exact List.mem_of_mem_filter h

lemma candidatesOf_ne_nil (m : Model) (h : m ≠ []) : candidatesOf m ≠ [] := by
  simp only [candidatesOf]
  split
  next hf => simpa using h
  next hf => exact hf

lemma candidatesOf_head (m : Model)
    (hex : ∃ p ∈ m, p.1.headD "" ∉ END_TOKENS) :
    ∀ x ∈ candidatesOf m, x.headD "" ∉ END_TOKENS := by
  obtain ⟨p, hp, hph⟩ := hex
  have hpm : p.1 ∈
      (m.map (fun p => p.1)).filter (fun s => decide (s.headD "" ∉ END_TOKENS)) :=
    List.mem_filter.mpr ⟨List.mem_map_of_mem _ hp, by simpa using hph⟩
  have hne :
      (m.map (fun p => p.1)).filter (fun s => decide (s.headD "" ∉ END_TOKENS)) ≠ [] :=
    List.ne_nil_of_mem hpm
  intro x hx
  simp only [candidatesOf, if_neg hne] at hx
  simpa using (List.mem_filter.mp hx).2

lemma startLoop_some {σ : Type} (rng : RNG σ) (cls : String → Bool)
    (cands : List (List String)) (hc : cands ≠ []) :
    ∀ (fuel : Nat) (g : σ) (st : List String) (g1 : σ),
      startLoop rng cls cands fuel g = some (st, g1) →
      st ∈ cands ∧ cls (st.headD "") = false := by
  intro fuel
  induction fuel with
  | zero => intro g st g1 h; simp [startLoop] at h
  | succ f ih =>
    intro g st g1 h
    simp only [startLoop] at h
    by_cases hp :
        cls ((cands.getD ((rng.next g).1 % cands.length) []).headD "") = true
    · rw [if_pos hp] at h
      exact ih _ _ _ h
    · rw [if_neg hp] at h
      have h1 : cands.getD ((rng.next g).1 % cands.length) [] = st :=
        congrArg Prod.fst (Option.some.inj h)
      subst h1
      exact ⟨getD_mod_mem cands [] _ hc, Bool.not_eq_true _ ▸ hp⟩

lemma headD_append (l t : List String) (d : String) (h : l ≠ []) :
    (l ++ t).headD d = l.headD d := by
  cases l with
  | nil => exact absurd rfl h
  | cons a l => simp

lemma extLoop_extends {σ : Type} (rng : RNG σ) (model : Model) (n : Nat) :
    ∀ (fuel : Nat) (out st : List String) (g : σ) (out' : List String) (g' : σ),
      extLoop rng model n fuel out st g = .ok (out', g') →
      ∃ tl, out ++ tl = out' := by
  intro fuel
  induction fuel with
  | zero =>
    intro out st g out' g' h
    simp only [extLoop] at h
    cases h
    exact ⟨[], by simp⟩
  | succ f ih =>
    intro out st g out' g' h
    simp only [extLoop] at h
    split at h
    · cases h
      exact ⟨[], by simp⟩
    · split at h
      · cases h
        exact ⟨[], by simp⟩
      · split at h
        · cases h
        · split at h
          · cases h
            exact ⟨_, rfl⟩
          · rename_i nxt g2 heq2 hnend
            obtain ⟨tl, htl⟩ := ih _ _ _ _ _ h
            refine ⟨nxt :: tl, ?_⟩
            rw [← htl]
            simp

lemma extLoop_ok_len {σ : Type} (rng : RNG σ) (model : Model) (n : Nat) :
    ∀ (fuel : Nat) (out st : List String) (g : σ) (out' : List String) (g' : σ),
      extLoop rng model n fuel out st g = .ok (out', g') →
      out'.length ≤ out.length + fuel := by
  intro fuel
  induction fuel with
  | zero =>
    intro out st g out' g' h
    simp only [extLoop] at h
    cases h
    simp
  | succ f ih =>
    intro out st g out' g' h
    simp only [extLoop] at h
    split at h
    · cases h; omega
    · split at h
      · cases h; omega
      · split at h
        · cases h
        · split at h
          · cases h
            simp only [List.length_append, List.length_cons, List.length_nil]
            omega
          · have := ih _ _ _ _ _ h
            simp at this
            omega

lemma extLoop_no_err {σ : Type} (rng : RNG σ) (model : Model) (n : Nat)
    (hpos : ∀ p ∈ model, ∀ q ∈ p.2, 1 ≤ q.2) :
    ∀ (fuel : Nat) (out st : List String) (g : σ),
      ∃ out' g', extLoop rng model n fuel out st g = .ok (out', g') := by
  intro fuel
  induction fuel with
  | zero => intro out st g; exact ⟨out, g, rfl⟩
  | succ f ih =>
    intro out st g
    cases hls : lookupState model st with
    | none => exact ⟨out, g, by simp [extLoop, hls]⟩
    | some counter =>
      by_cases hc : counter = []
      · exact ⟨out, g, by simp [extLoop, hls, hc]⟩
      · have hpc : ∀ q ∈ counter, 1 ≤ q.2 :=
          fun q hq => hpos _ (lookupState_mem model st counter hls) q hq
        have htw : totalW counter ≠ 0 := by
          cases counter with
          | nil => exact absurd rfl hc
          | cons q rest =>
            have h1 := hpc q (List.mem_cons_self _ _)
            simp [totalW]
            omega
        by_cases he : pickW counter ((rng.next g).1 % totalW counter) ∈ END_TOKENS
        · exact ⟨out ++ [pickW counter ((rng.next g).1 % totalW counter)],
            (rng.next g).2, by simp [extLoop, hls, hc, choose_next, htw, he]⟩
        · obtain ⟨out', g', hx⟩ :=
            ih (out ++ [pickW counter ((rng.next g).1 % totalW counter)])
              (lastN (n - 1)
                (out ++ [pickW counter ((rng.next g).1 % totalW counter)]))
              (rng.next g).2
          exact ⟨out', g', by simp [extLoop, hls, hc, choose_next, htw, he, hx]⟩

lemma rngIter_shift {σ : Type} (rng : RNG σ) (g : σ) (k : Nat) :
    rngIter rng g (k + 1) = rngIter rng (rng.next g).2 k := by
  induction k with
  | zero => rfl
  | succ k ih =>
    simp only [rngIter]
    rw [← ih]
    rfl

lemma drawAt_shift {σ : Type} (rng : RNG σ) (cands : List (List String))
    (g : σ) (k : Nat) :
    drawAt rng cands g (k + 1) = drawAt rng cands (rng.next g).2 k := by
  simp only [drawAt, rngIter_shift]

lemma startLoop_term {σ : Type} (rng : RNG σ) (cls : String → Bool)
    (cands : List (List String)) :
    ∀ (fuel : Nat) (g : σ),
      (∃ k, k < fuel ∧ cls ((drawAt rng cands g k).headD "") = false) →
      ∃ st g1, startLoop rng cls cands fuel g = some (st, g1) := by
  intro fuel
  induction fuel with
  | zero =>
    rintro g ⟨k, hk, _⟩
    omega
  | succ f ih =>
    rintro g ⟨k, hk, hg⟩
    by_cases h0 :
        cls ((cands.getD ((rng.next g).1 % cands.length) []).headD "") = true
    · have hk0 : k ≠ 0 := by
        intro h
        subst h
        have hd : drawAt rng cands g 0
            = cands.getD ((rng.next g).1 % cands.length) [] := rfl
        rw [hd, h0] at hg
        cases hg
      obtain ⟨k', rfl⟩ : ∃ k', k = k' + 1 := ⟨k - 1, by omega⟩
      have hg' : cls ((drawAt rng cands (rng.next g).2 k').headD "") = false := by
        rw [← drawAt_shift]
        exact hg
      obtain ⟨st, g1, hx⟩ := ih (rng.next g).2 ⟨k', by omega, hg'⟩
      refine ⟨st, g1, ?_⟩
      simp only [startLoop]
      rw [if_pos h0]
      exact hx
    · refine ⟨cands.getD ((rng.next g).1 % cands.length) [], (rng.next g).2, ?_⟩
      simp only [startLoop]
      rw [if_neg h0]

/-- C1 (amended): for every token sequence T and n ≥ 2, the count
build_model stores for a (state, successor) pair equals the number of
indices in the source's loop range `range(len(T) - n)` — i.e. the
inclusive index range [0, len(T) - n - 1], which excludes the final full
window at i = len(T) - n — whose window has that state and successor. -/
theorem c1_theorem (tokens : List String) (n : Nat) (_hn : 2 ≤ n)
    (st : List String) (tk : String) :
    lookupCnt (build_model tokens n) st tk = slidingCount tokens n st tk := by
  unfold build_model slidingCount
  by_cases hl : tokens.length < n
  · have h0 : tokens.length - n = 0 := by omega
    simp [hl, h0, lookupCnt, lookupState]
  · rw [if_neg hl, foldl_count]
    simp [lookupCnt, lookupState]

/-- C1 counterexample: the claim as stated is false.  For T = ["a","b"]
and n = 2 the claimed range [0, len(T) - n] contains i = 0, whose window
has state ("a") and successor "b", so the spec's count is 1; but the code
stores no count at all for that pair (its loop `range(len(T) - n)` is
empty). -/
theorem c1_counterexample :
    lookupCnt (build_model ["a", "b"] 2) ["a"] "b" = 0 ∧
    slidingCountFull ["a", "b"] 2 ["a"] "b" = 1 :=
  ⟨rfl, rfl⟩

/-- C1 witness: the amended theorem applied at a concrete input. -/
theorem c1_witness :
    2 ≤ 3 ∧ lookupCnt (build_model T7 3) ["私", "は"] "猫"
      = slidingCount T7 3 ["私", "は"] "猫" :=
  ⟨by decide, c1_theorem T7 3 (by decide) ["私", "は"] "猫"⟩

/-- C2 (amended): build_model(T, n) is empty iff len(T) ≤ n.  (The claim
said iff len(T) < n; but `for i in range(len(tokens) - n)` also performs
no iteration when len(T) = n, so the model is empty then too.) -/
theorem c2_theorem (tokens : List String) (n : Nat) (_hn : 2 ≤ n) :
    build_model tokens n = [] ↔ tokens.length ≤ n := by
  unfold build_model
  by_cases hl : tokens.length < n
  · simp [hl]
    omega
  · rw [if_neg hl]
    constructor
    · intro he
      by_contra hgt
      have hr : tokens.length - n ≠ 0 := by omega
      have hrange : List.range (tokens.length - n) ≠ [] := by
        simpa [List.range_eq_nil] using hr
      exact foldl_add_ne_nil tokens n _ [] (Or.inr hrange) he
    · intro hle
      have h0 : tokens.length - n = 0 := by omega
      simp [h0]

/-- C2 counterexample: for T = ["a","b"] and n = 2 we have
len(T) = n, so the claim says the model is nonempty; but the code
returns an empty model. -/
theorem c2_counterexample :
    build_model ["a", "b"] 2 = [] ∧ ¬ (["a", "b"] : List String).length < 2 :=
  ⟨rfl, by decide⟩

/-- C2 witness: the amended theorem applied at a concrete input. -/
theorem c2_witness :
    2 ≤ 2 ∧ (build_model ["a"] 2 = [] ↔ (["a"] : List String).length ≤ 2) :=
  ⟨by decide, c2_theorem ["a"] 2 (by decide)⟩

/-- C9: every state key of build_model(T, n) has length exactly n - 1,
and every recorded count is at least 1. -/
theorem c9_theorem (tokens : List String) (n : Nat) (_hn : 2 ≤ n) :
    ∀ p ∈ build_model tokens n, p.1.length = n - 1 ∧ ∀ q ∈ p.2, 1 ≤ q.2 :=
  fun p hp => build_model_inv tokens n p hp

/-- C9 witness: the theorem applied to a concrete entry of a concrete
model. -/
theorem c9_witness :
    2 ≤ 3 ∧ ((["私", "は"] : List String).length = 3 - 1 ∧
      ∀ q ∈ [("猫", 1)], 1 ≤ q.2) :=
  ⟨by decide, c9_theorem T7 3 (by decide) (["私", "は"], [("猫", 1)]) (by decide)⟩

/-- C7 counterexample: in build_model of the scenario sequence with
n = 3, the entry for state ("は","猫") is {"だ": 1}, not the claimed
entry {"だ": 1, "可愛い": 1}: the count of "可愛い" there is 0, and the
state ("は","可愛い") of the final sliding window is absent entirely. -/
theorem c7_counterexample :
    lookupState (build_model T7 3) ["は", "猫"] = some [("だ", 1)] ∧
    lookupCnt (build_model T7 3) ["は", "猫"] "可愛い" = 0 ∧
    lookupState (build_model T7 3) ["は", "可愛い"] = none :=
  ⟨rfl, rfl, rfl⟩

/-- C7 (amended): the model built from
["私","は","猫","だ","。","猫","は","可愛い","。"] with n = 3 has exactly
the six length-2 states of windows i = 0..5 (the final window's state
("は","可愛い") is excluded by the loop bound), with
("私","は") → {"猫": 1} and ("は","猫") → {"だ": 1}; and a generation
whose start state is ("私","は") with greedy (single-outcome) sampling
produces exactly the string "私は猫だ。". -/
theorem c7_theorem :
    (build_model T7 3).map (fun p => p.1)
      = [["私", "は"], ["は", "猫"], ["猫", "だ"], ["だ", "。"], ["。", "猫"],
         ["猫", "は"]] ∧
    lookupState (build_model T7 3) ["私", "は"] = some [("猫", 1)] ∧
    lookupState (build_model T7 3) ["は", "猫"] = some [("だ", 1)] ∧
    generate_sentence rng0 clsF (build_model T7 3) 3 10 none 1 0
      = some (.ok ("私は猫だ。", 0)) :=
  ⟨rfl, rfl, rfl, rfl⟩

/-- C6: determinism under a fixed seed.  When a seed is supplied, the
source reseeds the random source before generating, so the output is
independent of the pre-existing global random state: two invocations
with identical arguments return identical results. -/
theorem c6_theorem {σ : Type} (rng : RNG σ) (cls : String → Bool)
    (model : Model) (n maxLen s fuel : Nat) (g g' : σ) :
    generate_sentence rng cls model n maxLen (some s) fuel g
      = generate_sentence rng cls model n maxLen (some s) fuel g' := rfl

/-- C10: on a model produced by build_model, generate_sentence never
reaches choose_next's error branch: the dead-end guard skips absent or
empty counters, and every counter build_model creates is nonempty with
counts at least 1, so its total weight is positive. -/
theorem c10_theorem {σ : Type} (rng : RNG σ) (cls : String → Bool)
    (tokens : List String) (n maxLen : Nat) (seed : Option Nat) (fuel : Nat)
    (g : σ) :
    genTokens rng cls (build_model tokens n) n maxLen seed fuel g
      ≠ some (.error ()) := by
  have hpos : ∀ p ∈ build_model tokens n, ∀ q ∈ p.2, 1 ≤ q.2 :=
    fun p hp => (build_model_inv tokens n p hp).2
  by_cases hm : build_model tokens n = []
  · simp [genTokens, hm]
  · simp only [genTokens, if_neg hm]
    cases hs : startLoop rng cls (candidatesOf (build_model tokens n)) fuel
        (initState rng seed g) with
    | none => simp [hs]
    | some p =>
      obtain ⟨st, g1⟩ := p
      obtain ⟨out', g', hx⟩ := extLoop_no_err rng (build_model tokens n) n hpos
        (maxLen - st.length) st st g1
      simp [hs, hx]

/-- C4 counterexample: with n = 3 and max_len = 1, the start state alone
contributes 2 tokens, exceeding max_len, because the extension loop's
guard is only checked before appending and never truncates the start
state. -/
theorem c4_counterexample :
    genTokens rng0 clsF modelAB 3 1 none 1 0 = some (.ok (["a", "b"], 0)) ∧
    ¬ (["a", "b"] : List String).length ≤ 1 :=
  ⟨rfl, by decide⟩

/-- C4 (amended): for a model whose state keys have length n - 1 (as
build_model guarantees), the number of tokens used to build the result is
at most max (n - 1) max_len: at most max_len whenever max_len ≥ n - 1,
but the start state's n - 1 tokens are never truncated. -/
theorem c4_theorem {σ : Type} (rng : RNG σ) (cls : String → Bool)
    (model : Model) (n maxLen : Nat) (seed : Option Nat) (fuel : Nat) (g : σ)
    (out : List String) (g' : σ)
    (hkeys : ∀ p ∈ model, p.1.length = n - 1)
    (h : genTokens rng cls model n maxLen seed fuel g = some (.ok (out, g'))) :
    out.length ≤ max (n - 1) maxLen := by
  by_cases hm : model = []
  · simp [genTokens, hm] at h
    obtain ⟨h1, _⟩ := h
    subst h1
    simp
  · simp only [genTokens, if_neg hm] at h
    cases hs : startLoop rng cls (candidatesOf model) fuel
        (initState rng seed g) with
    | none =>
      simp only [hs] at h
      simp at h
    | some p =>
      obtain ⟨st, g1⟩ := p
      simp only [hs, Option.some.injEq] at h
      have hlen := extLoop_ok_len rng model n (maxLen - st.length) st st g1 out g' h
      have hst : st.length = n - 1 := by
        have hmem := startLoop_some rng cls (candidatesOf model)
          (candidatesOf_ne_nil model hm) fuel (initState rng seed g) st g1 hs
        obtain ⟨p, hp, hpe⟩ := List.mem_map.mp (mem_candidatesOf model st hmem.1)
        rw [← hpe]
        exact hkeys p hp
      omega

/-- C4 witness: the amended theorem applied at a concrete input. -/
theorem c4_witness :
    (∀ p ∈ modelAB, p.1.length = 3 - 1) ∧
    (["a", "b"] : List String).length ≤ max (3 - 1) 1 :=
  ⟨by decide,
    c4_theorem rng0 clsF modelAB 3 1 none 1 0 ["a", "b"] 0 (by decide) rfl⟩

/-- C8: if some state key's first token is not a terminator, then the
first token of any nonempty generated result is not a terminator: the
candidate filter keeps exactly the non-terminator-starting states and
falls back to all states only when that filter is empty. -/
theorem c8_theorem {σ : Type} (rng : RNG σ) (cls : String → Bool)
    (model : Model) (n maxLen : Nat) (seed : Option Nat) (fuel : Nat) (g : σ)
    (out : List String) (g' : σ)
    (hkeys : ∀ p ∈ model, p.1 ≠ [])
    (hex : ∃ p ∈ model, p.1.headD "" ∉ END_TOKENS)
    (h : genTokens rng cls model n maxLen seed fuel g = some (.ok (out, g')))
    (_hne : out ≠ []) :
    out.headD "" ∉ END_TOKENS := by
  have hm : model ≠ [] := by
    intro he
    rw [he] at hex
    simp at hex
  simp only [genTokens, if_neg hm] at h
  cases hs : startLoop rng cls (candidatesOf model) fuel
      (initState rng seed g) with
  | none =>
    simp only [hs] at h
    simp at h
  | some p =>
    obtain ⟨st, g1⟩ := p
    simp only [hs, Option.some.injEq] at h
    have hmem := startLoop_some rng cls (candidatesOf model)
      (candidatesOf_ne_nil model hm) fuel (initState rng seed g) st g1 hs
    have hsthead : st.headD "" ∉ END_TOKENS :=
      candidatesOf_head model hex st hmem.1
    have hstne : st ≠ [] := by
      obtain ⟨p, hp, hpe⟩ := List.mem_map.mp (mem_candidatesOf model st hmem.1)
      rw [← hpe]
      exact hkeys p hp
    obtain ⟨tl, htl⟩ := extLoop_extends rng model n (maxLen - st.length)
      st st g1 out g' h
    rw [← htl, headD_append st tl "" hstne]
    exact hsthead

/-- C8 witness: the theorem applied at a concrete input. -/
theorem c8_witness :
    genTokens rng0 clsF (build_model T7 3) 3 10 none 1 0
      = some (.ok (["私", "は", "猫", "だ", "。"], 0)) ∧
    (["私", "は", "猫", "だ", "。"] : List String).headD "" ∉ END_TOKENS :=
  ⟨rfl,
    c8_theorem rng0 clsF (build_model T7 3) 3 10 none 1 0
      ["私", "は", "猫", "だ", "。"] 0 (by decide) (by decide) rfl (by decide)⟩

/-- C3: evaluation of the code at the failing input.  START_EXCLUDE is
never consulted by generate_sentence: with a model whose only state is
("の","x") and a classifier that fails open on "の" (reports it as not a
particle), the generated sentence starts with "の", which is a member of
START_EXCLUDE. -/
theorem c3_theorem :
    genTokens rng0 clsF modelNo 3 10 none 1 0
      = some (.ok (["の", "x", "y"], 0)) ∧
    (["の", "x", "y"] : List String).headD "" ∈ START_EXCLUDE :=
  ⟨rfl, by decide⟩

lemma startLoop_stuck :
    ∀ (fuel g : Nat),
      startLoop rng0 clsP5 [["ぱ", "x"], ["a", "b"]] fuel g = none := by
  intro fuel
  induction fuel with
  | zero => intro g; rfl
  | succ f ih => intro g; exact ih g

/-- C5 counterexample: the claim as stated is false.  In model5 a
candidate start state with a non-particle first token exists (("a","b")),
yet when the random source keeps drawing the particle-starting candidate
("ぱ","x") (here: a draw sequence that always yields index 0), the
rejection-sampling loop never terminates: generate_sentence returns no
result for any amount of fuel. -/
theorem c5_counterexample :
    (∃ p ∈ model5, clsP5 (p.1.headD "") = false) ∧
    ¬ ∃ (fuel : Nat) (r : Except Unit (List String × Nat)),
        genTokens rng0 clsP5 model5 3 10 none fuel 0 = some r := by
  constructor
  · exact ⟨(["a", "b"], [("c", 1)]), by decide, rfl⟩
  · rintro ⟨fuel, r, h⟩
    have hm5 : ¬ model5 = [] := by decide
    have hcand : candidatesOf model5 = [["ぱ", "x"], ["a", "b"]] := by decide
    have hinit : initState rng0 none (0 : Nat) = 0 := rfl
    simp only [genTokens, if_neg hm5, hcand, hinit, startLoop_stuck fuel 0] at h
    simp at h

/-- C5 (amended): generate_sentence terminates and returns a string for
every nonempty model provided additionally that every recorded count is
at least 1 (as build_model guarantees) and that the random draw sequence
eventually selects a candidate whose first token is not classified as a
particle; the extension loop always terminates since it is bounded by
max_len.  Without the eventual-good-draw condition the rejection loop
can run forever even when a suitable candidate exists. -/
theorem c5_theorem {σ : Type} (rng : RNG σ) (cls : String → Bool)
    (model : Model) (n maxLen : Nat) (seed : Option Nat) (g : σ)
    (hm : model ≠ [])
    (hpos : ∀ p ∈ model, ∀ q ∈ p.2, 1 ≤ q.2)
    (hdraw : ∃ k,
      cls ((drawAt rng (candidatesOf model) (initState rng seed g) k).headD "")
        = false) :
    ∃ (fuel : Nat) (out : List String) (g' : σ),
      genTokens rng cls model n maxLen seed fuel g = some (.ok (out, g')) := by
  obtain ⟨k, hk⟩ := hdraw
  obtain ⟨st, g1, hs⟩ := startLoop_term rng cls (candidatesOf model) (k + 1)
    (initState rng seed g) ⟨k, by omega, hk⟩
  obtain ⟨out', g', hx⟩ := extLoop_no_err rng model n hpos
    (maxLen - st.length) st st g1
  refine ⟨k + 1, out', g', ?_⟩
  simp only [genTokens, if_neg hm, hs, hx]

/-- C5 witness: the amended theorem applied at a concrete input. -/
theorem c5_witness :
    modelAB ≠ [] ∧
    ∃ (fuel : Nat) (out : List String) (g' : Nat),
      genTokens rng0 clsF modelAB 3 10 none fuel 0 = some (.ok (out, g')) :=
  ⟨by decide,
    c5_theorem rng0 clsF modelAB 3 10 none 0 (by decide) (by decide) ⟨0, rfl⟩⟩
